import Mathlib

/-!
Verification of the trailing-stop core of the metatrader5 quant server.

The development shallowly embeds the two relevant source files:

* `src/app/lib.py`, function `apply_trailing_stop` — the trailing-stop
  calculator plus the gateway interaction around it.  Broker prices are
  modelled as exact rationals (`ℚ`); Python's `round(x, n)` builtin is
  modelled as exact decimal rounding with round-half-to-even tie breaking
  (`pyRound` / `roundTo` below).
* `src/app/trailing_stop_worker.py` — the job registry (a Python dict
  `active_trailing_stop_jobs`, modelled as an association list with
  insertion order) and one cycle of the supervision loop, with the
  Trading Terminal Gateway abstracted as an oracle (`WorkerEnv`).
-/

namespace MT5Trailing

/-- Mirrors `mt5.ORDER_TYPE_BUY` (value 0 in the MetaTrader5 API). -/
def ORDER_TYPE_BUY : ℕ := 0

/-- Mirrors `mt5.ORDER_TYPE_SELL` (value 1 in the MetaTrader5 API). -/
def ORDER_TYPE_SELL : ℕ := 1

/-- Rounding of `f + a` (with `f` an integer and `0 ≤ a < 1`) to the nearest
integer, ties to even — the fractional-part kernel of Python's `round`. -/
def pyRoundAux (f : ℤ) (a : ℚ) : ℤ :=
  if a < 1 / 2 then f
  else if 1 / 2 < a then f + 1
  else if 2 ∣ f then f else f + 1

/-- Python's builtin `round(x)` on an exact rational: nearest integer,
ties to even. -/
def pyRound (x : ℚ) : ℤ :=
  pyRoundAux ⌊x⌋ (x - ⌊x⌋)

/-- Python's builtin `round(x, n)` (as used at `round(new_sl, symbol_info.digits)`
in `apply_trailing_stop`): rounding to `n` decimal digits. -/
def roundTo (x : ℚ) (n : ℕ) : ℚ :=
  (pyRound (x * 10 ^ n) : ℚ) / 10 ^ n

/-- Decision of the trailing-stop calculator, i.e. the outcome of the
price-computation part of `apply_trailing_stop` (lib.py lines 296–355):
`reject` for the "new SL is above/below current price" early returns,
`noChange` for the tolerance early returns, `newStop` carrying the value
`round(new_sl, digits)` that would be sent to the broker, and
`invalidType` for the unknown-position-type `return None`. -/
inductive TSDecision where
  | reject (msg : String)
  | noChange (msg : String)
  | newStop (v : ℚ)
  | invalidType
deriving DecidableEq

/-- The pure trailing-stop calculator: lib.py lines 296–355 of
`apply_trailing_stop`, with `side` the position type, `cp` the current
price, `sl` the position's current stop-loss, `tdp` the trailing distance
already converted to a price delta (`trailing_distance * symbol_info.point`),
`point` the instrument point size and `digits` the price precision. -/
def computeNewStop (side : ℕ) (cp sl tdp point : ℚ) (digits : ℕ) : TSDecision :=
  if side = ORDER_TYPE_BUY then
    -- calculated_sl = current_price - trailing_distance_price
    -- new_sl = max(position.sl, calculated_sl)
    let calculated_sl := cp - tdp
    let new_sl := max sl calculated_sl
    if new_sl ≥ cp then
      .reject "No SL update needed - new SL is above current price"
    else if sl ≠ 0 ∧ new_sl ≤ sl + point * (1 / 10) then
      .noChange "No SL update needed"
    else
      .newStop (roundTo new_sl digits)
  else if side = ORDER_TYPE_SELL then
    -- calculated_sl = current_price + trailing_distance_price
    -- new_sl = calculated_sl if position.sl == 0 else min(position.sl, calculated_sl)
    let calculated_sl := cp + tdp
    let new_sl := if sl = 0 then calculated_sl else min sl calculated_sl
    if new_sl ≤ cp then
      .reject "No SL update needed - new SL is below current price"
    else if sl ≠ 0 ∧ new_sl ≥ sl - point * (1 / 10) then
      .noChange "No SL update needed"
    else
      .newStop (roundTo new_sl digits)
  else
    .invalidType

/-- Read-only view of an MT5 position as used by `apply_trailing_stop`:
`type`, `sl` and `tp` fields (symbol and ticket are kept implicit in the
gateway oracle). -/
structure Position where
  ptype : ℕ
  sl : ℚ
  tp : ℚ
deriving DecidableEq

/-- An MT5 tick: `bid` and `ask`. -/
structure Tick where
  bid : ℚ
  ask : ℚ
deriving DecidableEq

/-- Instrument metadata from `mt5.symbol_info`: `point` and `digits`. -/
structure SymbolInfo where
  point : ℚ
  digits : ℕ
deriving DecidableEq

/-- A `TRADE_ACTION_SLTP` modification request as built by
`apply_trailing_stop`: the formatted new stop-loss and the preserved
take-profit. -/
structure Submission where
  sl : ℚ
  tp : ℚ
deriving DecidableEq

/-- Result value of `apply_trailing_stop` when it does not return `None`:
either a `{"message": ...}` dictionary or the successful-modification
result (carrying the stop that was set). -/
inductive ApplyRes where
  | msg (s : String)
  | done (sl : ℚ)
deriving DecidableEq

/-- Shallow embedding of `apply_trailing_stop` (lib.py lines 249–378).
The three gateway queries (`positions_get`, `symbol_info_tick`,
`symbol_info`) are passed as `Option` inputs, and the broker's answer to
`order_send` as `orderOk`.  The first component is the Python return value
(`none` for `return None`), the second the list of modification requests
actually sent to the broker (empty or a single one — sent even when the
broker then reports failure). -/
def applyTrailingStop (pos? : Option Position) (tick? : Option Tick)
    (info? : Option SymbolInfo) (trailing_distance : ℚ) (orderOk : Bool) :
    Option ApplyRes × List Submission :=
  match pos? with
  | none => (none, [])
  | some pos =>
    match tick? with
    | none => (none, [])
    | some tick =>
      match info? with
      | none => (none, [])
      | some info =>
        let current_price := if pos.ptype = ORDER_TYPE_BUY then tick.ask else tick.bid
        match computeNewStop pos.ptype current_price pos.sl
            (trailing_distance * info.point) info.point info.digits with
        | .invalidType => (none, [])
        | .reject m => (some (.msg m), [])
        | .noChange m => (some (.msg m), [])
        | .newStop v =>
          if orderOk then (some (.done v), [⟨v, pos.tp⟩])
          else (none, [⟨v, pos.tp⟩])

/-- The worker's job registry, `active_trailing_stop_jobs` in
trailing_stop_worker.py: a Python dict `{position_ticket: trailing_distance}`,
modelled as an association list in insertion order. -/
abbrev Registry := List (ℕ × ℚ)

/-- Python `position_ticket in active_trailing_stop_jobs`. -/
def containsTicket : Registry → ℕ → Bool
  | [], _ => false
  | p :: rest, t => if p.1 = t then true else containsTicket rest t

/-- Python `active_trailing_stop_jobs[position_ticket]` (read): the value
stored under the key. -/
def lookupTicket : Registry → ℕ → Option ℚ
  | [], _ => none
  | p :: rest, t => if p.1 = t then some p.2 else lookupTicket rest t

/-- Python `del active_trailing_stop_jobs[position_ticket]`: drop the
entry with the given key. -/
def eraseTicket : Registry → ℕ → Registry
  | [], _ => []
  | p :: rest, t => if p.1 = t then eraseTicket rest t else p :: eraseTicket rest t

/-- Python `active_trailing_stop_jobs[position_ticket] = trailing_distance`:
update the value in place if the key is present, append otherwise. -/
def upsertEntry (reg : Registry) (t : ℕ) (d : ℚ) : Registry :=
  if containsTicket reg t then
    reg.map (fun p => if p.1 = t then (t, d) else p)
  else
    reg ++ [(t, d)]

/-- `add_trailing_stop_job_to_worker` (trailing_stop_worker.py lines
110–137): checks via the gateway that the position exists (`present`),
returns `False` leaving the registry unchanged if not, otherwise upserts
and returns `True`. -/
def addJob (present : ℕ → Bool) (reg : Registry) (t : ℕ) (d : ℚ) :
    Bool × Registry :=
  if present t then (true, upsertEntry reg t d) else (false, reg)

/-- `remove_trailing_stop_job_from_worker` (trailing_stop_worker.py lines
139–155): deletes the entry and returns `True` if present, otherwise
returns `False` leaving the registry unchanged. -/
def removeJob (reg : Registry) (t : ℕ) : Bool × Registry :=
  if containsTicket reg t then (true, eraseTicket reg t) else (false, reg)

/-- `get_active_worker_jobs_list` (trailing_stop_worker.py lines 157–170):
the snapshot listing of `{position_ticket, trailing_distance}` pairs. -/
def snapshotJobs (reg : Registry) : List (ℕ × ℚ) :=
  reg.map (fun p => (p.1, p.2))

/-- Number of snapshot entries carrying ticket `t`. -/
def countKey (reg : Registry) (t : ℕ) : ℕ :=
  (reg.map Prod.fst).count t

/-- Well-formedness the Python dict guarantees: keys are unique. -/
def RegistryWF (reg : Registry) : Prop :=
  (reg.map Prod.fst).Nodup

instance : DecidablePred RegistryWF := fun reg =>
  inferInstanceAs (Decidable ((reg.map Prod.fst).Nodup))

/-- The Trading Terminal Gateway as seen by one supervision cycle, as a
per-ticket oracle: `presentBefore`/`presentAfter` are the worker's own
`positions_get` existence checks before and after the update attempt;
`raises` models an exception thrown at the start of the job's `try` block
(caught by the per-job `except`); `pos`, `tick`, `info` and `orderOk` are
the answers to the gateway calls made inside `apply_trailing_stop`. -/
structure WorkerEnv where
  presentBefore : ℕ → Bool
  raises : ℕ → Bool
  pos : ℕ → Option Position
  tick : ℕ → Option Tick
  info : ℕ → Option SymbolInfo
  orderOk : ℕ → Bool
  presentAfter : ℕ → Bool

/-- State threaded through one cycle: the live registry plus the log of
modification requests submitted so far (tagged with the job's ticket). -/
abbrev CycleState := Registry × List (ℕ × Submission)

/-- Body of the `for position_ticket in tickets_to_process` loop in
`trailing_stop_worker_function` (trailing_stop_worker.py lines 31–66):
skip if the ticket has meanwhile left the dict; an exception anywhere in
the `try` block is caught and leaves the state as is; if the pre-check
reports the position gone, remove the job; otherwise run
`apply_trailing_stop` with the job's distance and finally remove the job
if the post-check reports the position gone. -/
def processJob (env : WorkerEnv) (st : CycleState) (t : ℕ) : CycleState :=
  if containsTicket st.1 t then
    if env.raises t then st
    else if env.presentBefore t then
      let d := (lookupTicket st.1 t).getD 0
      let sent := (applyTrailingStop (env.pos t) (env.tick t) (env.info t) d
        (env.orderOk t)).2
      let subs := st.2 ++ sent.map (fun s => (t, s))
      if env.presentAfter t then (st.1, subs)
      else ((removeJob st.1 t).2, subs)
    else ((removeJob st.1 t).2, st.2)
  else st

/-- One supervision cycle: snapshot the dict's keys
(`tickets_to_process = list(active_trailing_stop_jobs.keys())`) and fold
the per-job body over them, starting from an empty submission log. -/
def runCycle (env : WorkerEnv) (reg : Registry) : CycleState :=
  (reg.map Prod.fst).foldl (processJob env) (reg, [])

/-- Gateway oracle for the end-to-end scenario of §8 of the spec: a long
position with no stop and zero take-profit, market at 1.1050, point size
0.0001, four price digits, everything reachable and the broker accepting
the modification. -/
def scenario1Env : WorkerEnv where
  presentBefore := fun _ => true
  raises := fun _ => false
  pos := fun _ => some ⟨ORDER_TYPE_BUY, 0, 0⟩
  tick := fun _ => some ⟨1105 / 1000, 1105 / 1000⟩
  info := fun _ => some ⟨1 / 10000, 4⟩
  orderOk := fun _ => true
  presentAfter := fun _ => true

/-- Gateway oracle reporting every position closed at the pre-update check. -/
def goneEnv : WorkerEnv where
  presentBefore := fun _ => false
  raises := fun _ => false
  pos := fun _ => none
  tick := fun _ => none
  info := fun _ => none
  orderOk := fun _ => false
  presentAfter := fun _ => false

/-- Gateway oracle that throws for ticket 3 and reports ticket 5 closed:
exercises failure isolation between two jobs of one cycle. -/
def mixedEnv : WorkerEnv where
  presentBefore := fun t => t != 5
  raises := fun t => t == 3
  pos := fun _ => none
  tick := fun _ => none
  info := fun _ => none
  orderOk := fun _ => false
  presentAfter := fun _ => true

/-- Gateway answering that every position exists, for registration calls. -/
def alwaysPresent : ℕ → Bool := fun _ => true

/-! ### Rounding lemmas -/

theorem pyRoundAux_ge (f : ℤ) (a : ℚ) : f ≤ pyRoundAux f a := by
  unfold pyRoundAux
  split_ifs <;> omega

theorem pyRoundAux_le (f : ℤ) (a : ℚ) : pyRoundAux f a ≤ f + 1 := by
  unfold pyRoundAux
  split_ifs <;> omega

theorem pyRoundAux_mono (f : ℤ) {a b : ℚ} (hab : a ≤ b) :
    pyRoundAux f a ≤ pyRoundAux f b := by
  unfold pyRoundAux
  by_cases ha1 : a < 1 / 2
  · rw [if_pos ha1]
    split_ifs <;> omega
  · have hb1 : ¬b < 1 / 2 := fun h => ha1 (lt_of_le_of_lt hab h)
    rw [if_neg ha1, if_neg hb1]
    by_cases ha2 : 1 / 2 < a
    · rw [if_pos ha2, if_pos (lt_of_lt_of_le ha2 hab)]
    · rw [if_neg ha2]
      split_ifs <;> omega

theorem pyRound_mono {x y : ℚ} (h : x ≤ y) : pyRound x ≤ pyRound y := by
  unfold pyRound
  rcases lt_or_eq_of_le (Int.floor_mono h) with hf | hf
  · calc pyRoundAux ⌊x⌋ (x - ⌊x⌋) ≤ ⌊x⌋ + 1 := pyRoundAux_le _ _
      _ ≤ ⌊y⌋ := by omega
      _ ≤ pyRoundAux ⌊y⌋ (y - ⌊y⌋) := pyRoundAux_ge _ _
  · rw [hf]
    exact pyRoundAux_mono _ (by rw [hf] at *; linarith)

theorem pyRound_intCast (k : ℤ) : pyRound (k : ℚ) = k := by
  unfold pyRound pyRoundAux
  rw [Int.floor_intCast]
  norm_num

theorem roundTo_mono {x y : ℚ} (n : ℕ) (h : x ≤ y) : roundTo x n ≤ roundTo y n := by
  unfold roundTo
  have hp : (0 : ℚ) < 10 ^ n := by positivity
  have := pyRound_mono (mul_le_mul_of_nonneg_right h (le_of_lt hp))
  exact (div_le_div_iff_of_pos_right hp).mpr (by exact_mod_cast this)

theorem roundTo_grid (k : ℤ) (n : ℕ) : roundTo ((k : ℚ) / 10 ^ n) n = (k : ℚ) / 10 ^ n := by
  unfold roundTo
  have hp : (10 : ℚ) ^ n ≠ 0 := by positivity
  rw [div_mul_cancel₀ _ hp, pyRound_intCast]

theorem roundTo_zero (n : ℕ) : roundTo 0 n = 0 := by
  have := roundTo_grid 0 n
  simpa using this

/-- Branch form of the calculator for a BUY position (lib.py lines
300–320 and 353–355), definitionally equal to `computeNewStop`. -/
theorem computeNewStop_buy (cp sl tdp point : ℚ) (digits : ℕ) :
    computeNewStop ORDER_TYPE_BUY cp sl tdp point digits =
      (if cp ≤ max sl (cp - tdp) then
        TSDecision.reject "No SL update needed - new SL is above current price"
      else if sl ≠ 0 ∧ max sl (cp - tdp) ≤ sl + point * (1 / 10) then
        TSDecision.noChange "No SL update needed"
      else TSDecision.newStop (roundTo (max sl (cp - tdp)) digits)) := rfl

/-- Branch form of the calculator for a SELL position (lib.py lines
322–346 and 353–355), definitionally equal to `computeNewStop`. -/
theorem computeNewStop_sell (cp sl tdp point : ℚ) (digits : ℕ) :
    computeNewStop ORDER_TYPE_SELL cp sl tdp point digits =
      (if (if sl = 0 then cp + tdp else min sl (cp + tdp)) ≤ cp then
        TSDecision.reject "No SL update needed - new SL is below current price"
      else if sl ≠ 0 ∧
          sl - point * (1 / 10) ≤ (if sl = 0 then cp + tdp else min sl (cp + tdp)) then
        TSDecision.noChange "No SL update needed"
      else
        TSDecision.newStop
          (roundTo (if sl = 0 then cp + tdp else min sl (cp + tdp)) digits)) := rfl

/-! ### Registry lemmas -/

theorem contains_iff_mem_keys (reg : Registry) (t : ℕ) :
    containsTicket reg t = true ↔ t ∈ reg.map Prod.fst := by
  induction reg with
  | nil => simp [containsTicket]
  | cons p rest ih =>
    by_cases h : p.1 = t
    · simp [containsTicket, h]
    · have h' : ¬t = p.1 := fun hh => h hh.symm
      simp [containsTicket, h, h', ih]

theorem contains_eq_false_iff (reg : Registry) (t : ℕ) :
    containsTicket reg t = false ↔ t ∉ reg.map Prod.fst := by
  rw [← contains_iff_mem_keys]
  cases h : containsTicket reg t <;> simp [h]

theorem contains_erase_self (reg : Registry) (t : ℕ) :
    containsTicket (eraseTicket reg t) t = false := by
  induction reg with
  | nil => rfl
  | cons p rest ih =>
    by_cases h : p.1 = t <;> simp [eraseTicket, containsTicket, h, ih]

theorem contains_erase_ne (reg : Registry) {t u : ℕ} (h : t ≠ u) :
    containsTicket (eraseTicket reg u) t = containsTicket reg t := by
  induction reg with
  | nil => rfl
  | cons p rest ih =>
    have hut : ¬u = t := by omega
    have htu : ¬t = u := by omega
    by_cases hp : p.1 = u
    · have hpt : ¬p.1 = t := by omega
      simp [eraseTicket, containsTicket, hp, hpt, hut, ih]
    · by_cases hq : p.1 = t <;>
        simp [eraseTicket, containsTicket, hp, hq, htu, ih]

theorem lookup_erase_ne (reg : Registry) {t u : ℕ} (h : t ≠ u) :
    lookupTicket (eraseTicket reg u) t = lookupTicket reg t := by
  induction reg with
  | nil => rfl
  | cons p rest ih =>
    have hut : ¬u = t := by omega
    have htu : ¬t = u := by omega
    by_cases hp : p.1 = u
    · have hpt : ¬p.1 = t := by omega
      simp [eraseTicket, lookupTicket, hp, hpt, hut, ih]
    · by_cases hq : p.1 = t <;>
        simp [eraseTicket, lookupTicket, hp, hq, htu, ih]

theorem lookup_erase_self (reg : Registry) (t : ℕ) :
    lookupTicket (eraseTicket reg t) t = none := by
  induction reg with
  | nil => rfl
  | cons p rest ih =>
    by_cases h : p.1 = t <;> simp [eraseTicket, lookupTicket, h, ih]

theorem removeJob_snd_cases (reg : Registry) (t : ℕ) :
    (removeJob reg t).2 = reg ∨ (removeJob reg t).2 = eraseTicket reg t := by
  unfold removeJob
  split_ifs <;> simp

theorem contains_erase_false (reg : Registry) {t : ℕ} (u : ℕ)
    (h : containsTicket reg t = false) :
    containsTicket (eraseTicket reg u) t = false := by
  by_cases hu : t = u
  · rw [hu]
    exact contains_erase_self reg u
  · rw [contains_erase_ne reg hu]
    exact h

/-! ### Per-job lemmas about the supervision-loop body -/

theorem processJob_fst_cases (env : WorkerEnv) (st : CycleState) (t : ℕ) :
    (processJob env st t).1 = st.1 ∨ (processJob env st t).1 = eraseTicket st.1 t := by
  unfold processJob
  rcases removeJob_snd_cases st.1 t with h | h <;> split_ifs <;> simp [h]

theorem processJob_not_contains (env : WorkerEnv) (st : CycleState) (t : ℕ)
    (h : containsTicket st.1 t = false) :
    processJob env st t = st := by
  unfold processJob
  simp [h]

theorem processJob_raises (env : WorkerEnv) (st : CycleState) (t : ℕ)
    (h : env.raises t = true) :
    processJob env st t = st := by
  unfold processJob
  simp [h]

theorem processJob_removes (env : WorkerEnv) (st : CycleState) (t : ℕ)
    (hc : containsTicket st.1 t = true) (hnr : env.raises t = false)
    (hgone : env.presentBefore t = false ∨ env.presentAfter t = false) :
    containsTicket (processJob env st t).1 t = false := by
  by_cases hpb : env.presentBefore t = true
  · have hpa : env.presentAfter t = false := by
      rcases hgone with hg | hg
      · rw [hpb] at hg
        cases hg
      · exact hg
    simp [processJob, hc, hnr, hpb, hpa, removeJob, contains_erase_self]
  · simp [processJob, hc, hnr, hpb, removeJob, contains_erase_self]

/-! ### Whole-cycle fold lemmas -/

theorem foldl_lookup_subset (env : WorkerEnv) (ts : List ℕ) :
    ∀ (st : CycleState) (t : ℕ),
      lookupTicket (ts.foldl (processJob env) st).1 t = none ∨
      lookupTicket (ts.foldl (processJob env) st).1 t = lookupTicket st.1 t := by
  induction ts with
  | nil => intro st t; right; rfl
  | cons u rest ih =>
    intro st t
    rw [List.foldl_cons]
    rcases ih (processJob env st u) t with hnone | heq
    · left
      exact hnone
    · rcases processJob_fst_cases env st u with hkeep | herase
      · right
        rw [heq, hkeep]
      · by_cases htu : t = u
        · left
          rw [heq, herase, htu, lookup_erase_self]
        · right
          rw [heq, herase, lookup_erase_ne st.1 htu]

theorem foldl_contains_false (env : WorkerEnv) (ts : List ℕ) :
    ∀ (st : CycleState) (t : ℕ), containsTicket st.1 t = false →
      containsTicket (ts.foldl (processJob env) st).1 t = false := by
  induction ts with
  | nil => intro st t h; exact h
  | cons u rest ih =>
    intro st t h
    rw [List.foldl_cons]
    apply ih
    rcases processJob_fst_cases env st u with hkeep | herase
    · rw [hkeep]
      exact h
    · rw [herase]
      exact contains_erase_false st.1 u h

theorem foldl_removes (env : WorkerEnv) {t : ℕ} (hnr : env.raises t = false)
    (hgone : env.presentBefore t = false ∨ env.presentAfter t = false)
    (ts : List ℕ) :
    ∀ st : CycleState, t ∈ ts → containsTicket st.1 t = true →
      containsTicket (ts.foldl (processJob env) st).1 t = false := by
  induction ts with
  | nil => intro st hmem; cases hmem
  | cons u rest ih =>
    intro st hmem hc
    rw [List.foldl_cons]
    by_cases hut : u = t
    · apply foldl_contains_false
      rw [hut]
      exact processJob_removes env st t hc hnr hgone
    · have hmem' : t ∈ rest := by
        rcases List.mem_cons.mp hmem with hh | hh
        · exact absurd hh.symm hut
        · exact hh
      apply ih _ hmem'
      rcases processJob_fst_cases env st u with hkeep | herase
      · rw [hkeep]
        exact hc
      · rw [herase, contains_erase_ne st.1 (fun hh => hut hh.symm)]
        exact hc

theorem foldl_lookup_raises (env : WorkerEnv) {t : ℕ} (hr : env.raises t = true)
    (ts : List ℕ) :
    ∀ st : CycleState,
      lookupTicket (ts.foldl (processJob env) st).1 t = lookupTicket st.1 t := by
  induction ts with
  | nil => intro st; rfl
  | cons u rest ih =>
    intro st
    rw [List.foldl_cons, ih (processJob env st u)]
    by_cases hut : u = t
    · rw [hut, processJob_raises env st t hr]
    · rcases processJob_fst_cases env st u with hkeep | herase
      · rw [hkeep]
      · rw [herase, lookup_erase_ne st.1 (fun hh => hut hh.symm)]

/-! ### Upsert lemmas -/

theorem keys_map_update (reg : Registry) (t : ℕ) (d : ℚ) :
    (reg.map fun p => if p.1 = t then (t, d) else p).map Prod.fst =
      reg.map Prod.fst := by
  induction reg with
  | nil => rfl
  | cons p rest ih =>
    by_cases h : p.1 = t <;> simp [h, ih]

theorem lookup_map_update (reg : Registry) (t : ℕ) (d : ℚ)
    (hc : containsTicket reg t = true) :
    lookupTicket (reg.map fun p => if p.1 = t then (t, d) else p) t = some d := by
  induction reg with
  | nil => cases hc
  | cons p rest ih =>
    by_cases h : p.1 = t
    · simp [lookupTicket, h]
    · have hc' : containsTicket rest t = true := by
        simpa [containsTicket, h] using hc
      simp [lookupTicket, h, ih hc']

theorem lookup_append_single (reg : Registry) (t : ℕ) (d : ℚ)
    (hc : containsTicket reg t = false) :
    lookupTicket (reg ++ [(t, d)]) t = some d := by
  induction reg with
  | nil => simp [lookupTicket]
  | cons p rest ih =>
    have h : ¬p.1 = t := by
      intro hh
      simp [containsTicket, hh] at hc
    have hc' : containsTicket rest t = false := by
      simpa [containsTicket, h] using hc
    simp [lookupTicket, h, ih hc']

theorem lookup_upsert_self (reg : Registry) (t : ℕ) (d : ℚ) :
    lookupTicket (upsertEntry reg t d) t = some d := by
  unfold upsertEntry
  by_cases hc : containsTicket reg t = true
  · rw [if_pos hc]
    exact lookup_map_update reg t d hc
  · have hc' : containsTicket reg t = false := by
      cases h : containsTicket reg t
      · rfl
      · exact absurd h hc
    rw [if_neg hc]
    exact lookup_append_single reg t d hc'

theorem wf_upsert (reg : Registry) (t : ℕ) (d : ℚ) (hwf : RegistryWF reg) :
    RegistryWF (upsertEntry reg t d) := by
  unfold upsertEntry RegistryWF
  split_ifs with hc
  · rw [keys_map_update]
    exact hwf
  · have hnc : containsTicket reg t = false := by
      cases h : containsTicket reg t
      · rfl
      · exact absurd h hc
    have hmem : t ∉ reg.map Prod.fst := (contains_eq_false_iff reg t).mp hnc
    unfold RegistryWF at hwf
    simp [List.nodup_append, hwf, hmem]

theorem countKey_upsert (reg : Registry) (t : ℕ) (d : ℚ) (hwf : RegistryWF reg) :
    countKey (upsertEntry reg t d) t = 1 := by
  unfold upsertEntry countKey
  split_ifs with hc
  · rw [keys_map_update]
    have hmem : t ∈ reg.map Prod.fst := (contains_iff_mem_keys reg t).mp hc
    exact List.count_eq_one_of_mem hwf hmem
  · have hnc : containsTicket reg t = false := by
      cases h : containsTicket reg t
      · rfl
      · exact absurd h hc
    have hmem : t ∉ reg.map Prod.fst := (contains_eq_false_iff reg t).mp hnc
    simp [List.count_append, List.count_eq_zero.mpr hmem]

theorem contains_upsert_self (reg : Registry) (t : ℕ) (d : ℚ) :
    containsTicket (upsertEntry reg t d) t = true := by
  induction reg with
  | nil => simp [upsertEntry, containsTicket]
  | cons p rest ih =>
    by_cases h : p.1 = t
    · simp [upsertEntry, containsTicket, h]
    · by_cases hc : containsTicket rest t = true
      · simp [upsertEntry, containsTicket, h, hc] at *
        simpa [upsertEntry, hc] using ih
      · have hc' : containsTicket rest t = false := by
          cases hh : containsTicket rest t
          · rfl
          · exact absurd hh hc
        simp [upsertEntry, containsTicket, h, hc'] at *
        simpa [upsertEntry, hc'] using ih

/-! ### Claim theorems -/

/-- C4: in a supervision cycle, a job whose position the Gateway reports
absent — at the pre-update check or at the post-update re-check (the
check having returned, i.e. not thrown) — is removed from the registry
before the cycle ends. -/
theorem cycle_removes_closed_position (env : WorkerEnv) (reg : Registry) (t : ℕ)
    (ht : containsTicket reg t = true) (hnr : env.raises t = false)
    (hgone : env.presentBefore t = false ∨ env.presentAfter t = false) :
    containsTicket (runCycle env reg).1 t = false := by
  unfold runCycle
  exact foldl_removes env hnr hgone _ _ ((contains_iff_mem_keys reg t).mp ht) ht

/-- C4 witness: a registry holding ticket 5 whose position the Gateway
reports gone at the pre-update check loses that job within the cycle. -/
theorem cycle_removes_closed_position_witness :
    containsTicket (runCycle goneEnv [(5, 10)]).1 5 = false :=
  cycle_removes_closed_position goneEnv [(5, 10)] 5 (by decide) (by decide)
    (Or.inl (by decide))

/-- C6: per-job failure isolation — an exception while processing ticket
`t` leaves `t`'s registry entry untouched (retried next cycle) and does
not prevent the removal of a different ticket `t'` whose position is
reported gone in the same cycle's snapshot. -/
theorem cycle_isolates_failures (env : WorkerEnv) (reg : Registry) (t t' : ℕ)
    (hraise : env.raises t = true) (ht' : containsTicket reg t' = true)
    (hnr' : env.raises t' = false) (hgone' : env.presentBefore t' = false) :
    lookupTicket (runCycle env reg).1 t = lookupTicket reg t ∧
    containsTicket (runCycle env reg).1 t' = false := by
  unfold runCycle
  refine ⟨foldl_lookup_raises env hraise _ _, ?_⟩
  exact foldl_removes env hnr' (Or.inl hgone') _ _
    ((contains_iff_mem_keys reg t').mp ht') ht'

/-- C6 witness: with ticket 3 raising and ticket 5's position gone, the
cycle keeps job 3 with its distance and still removes job 5. -/
theorem cycle_isolates_failures_witness :
    lookupTicket (runCycle mixedEnv [(3, 1), (5, 2)]).1 3 =
      lookupTicket [(3, 1), (5, 2)] 3 ∧
    containsTicket (runCycle mixedEnv [(3, 1), (5, 2)]).1 5 = false :=
  cycle_isolates_failures mixedEnv [(3, 1), (5, 2)] 3 5 (by decide) (by decide)
    (by decide) (by decide)

/-- C8: removing a ticket that has no registry entry returns `False`
(`NotFound`) and leaves the registry exactly as it was. -/
theorem remove_missing_ticket_noop (reg : Registry) (t : ℕ)
    (h : containsTicket reg t = false) :
    removeJob reg t = (false, reg) := by
  simp [removeJob, h]

/-- C8 witness: removing absent ticket 2 from a registry holding only
ticket 1 reports failure and changes nothing. -/
theorem remove_missing_ticket_noop_witness :
    removeJob [(1, 5)] 2 = (false, [(1, 5)]) :=
  remove_missing_ticket_noop [(1, 5)] 2 (by decide)

/-- C10: a supervision cycle only ever shrinks the registry — after the
cycle every ticket is either gone or still mapped to the distance it had
when the cycle started; no insertion and no distance change. -/
theorem cycle_never_inserts (env : WorkerEnv) (reg : Registry) (t : ℕ) :
    lookupTicket (runCycle env reg).1 t = none ∨
    lookupTicket (runCycle env reg).1 t = lookupTicket reg t := by
  unfold runCycle
  exact foldl_lookup_subset env _ (reg, []) t

/-- C5: after any nonempty sequence of successful upserts for one ticket
(each succeeding because the Gateway reports the position present), the
registry holds exactly one entry for that ticket and its distance is the
one passed to the most recent upsert. -/
theorem upsert_last_writer_wins (present : ℕ → Bool) (reg : Registry) (t : ℕ)
    (ds : List ℚ) (dlast : ℚ) (hwf : RegistryWF reg) (hpres : present t = true)
    (hlast : ds.getLast? = some dlast) :
    countKey (ds.foldl (fun r d => (addJob present r t d).2) reg) t = 1 ∧
    lookupTicket (ds.foldl (fun r d => (addJob present r t d).2) reg) t =
      some dlast := by
  induction ds generalizing reg with
  | nil => cases hlast
  | cons d rest ih =>
    rw [List.foldl_cons]
    have hstep : (addJob present reg t d).2 = upsertEntry reg t d := by
      simp [addJob, hpres]
    rw [hstep]
    cases rest with
    | nil =>
      have hd : d = dlast := by
        simpa [List.getLast?] using hlast
      subst hd
      exact ⟨countKey_upsert reg t d hwf, lookup_upsert_self reg t d⟩
    | cons d2 rest2 =>
      have hlast' : (d2 :: rest2).getLast? = some dlast := by
        rw [List.getLast?_cons_cons] at hlast
        exact hlast
      exact ih (upsertEntry reg t d) (wf_upsert reg t d hwf) hlast'

/-- C5 witness: upserting ticket 1 with distance 5 and then 8 into an
empty registry leaves exactly one entry for ticket 1, with distance 8. -/
theorem upsert_last_writer_wins_witness :
    countKey ([5, 8].foldl (fun r d => (addJob alwaysPresent r 1 d).2) []) 1 = 1 ∧
    lookupTicket ([5, 8].foldl (fun r d => (addJob alwaysPresent r 1 d).2) []) 1 =
      some 8 :=
  upsert_last_writer_wins alwaysPresent [] 1 [5, 8] 8 (by simp [RegistryWF])
    (by decide) (by simp)

/-- C7 counterexample: in the spec's scenario 1 (long, stop 0, distance
100 points, point size 0.0001, price 1.1050) the calculator accepts
1.0950 = 1.1050 − 0.0100, not the 1.1040 the claim states. -/
theorem scenario1_cex :
    computeNewStop ORDER_TYPE_BUY (1105 / 1000) 0 (100 * (1 / 10000)) (1 / 10000) 4 =
      .newStop (219 / 200) ∧ (219 / 200 : ℚ) ≠ 1104 / 1000 := by
  constructor
  · norm_num [computeNewStop, ORDER_TYPE_BUY, ORDER_TYPE_SELL, roundTo, pyRound,
      pyRoundAux]
  · norm_num

/-- C7 amended: in scenario 1 the calculator accepts new stop
1.1050 − 0.0100 = 1.0950 (already at the instrument's four digits) and the
cycle submits exactly one stop-loss modification carrying that value. -/
theorem scenario1_submits_once :
    computeNewStop ORDER_TYPE_BUY (1105 / 1000) 0 (100 * (1 / 10000)) (1 / 10000) 4 =
      .newStop (219 / 200) ∧
    (runCycle scenario1Env [(7, 100)]).2 = [(7, ⟨219 / 200, 0⟩)] := by
  constructor
  · norm_num [computeNewStop, ORDER_TYPE_BUY, ORDER_TYPE_SELL, roundTo, pyRound,
      pyRoundAux]
  · norm_num [runCycle, processJob, scenario1Env, containsTicket, lookupTicket,
      applyTrailingStop, computeNewStop, ORDER_TYPE_BUY, ORDER_TYPE_SELL,
      roundTo, pyRound, pyRoundAux]

/-- C9: a long position with no stop and a trailing distance exceeding the
current price gets the decision `NewStop 0` — the negative candidate is
lifted to 0 by the max with the zero stop, the at-or-above-market check
does not fire, the zero-stop tolerance check is skipped — and the
modification submitted to the broker clears the stop (stop 0, take-profit
preserved). -/
theorem zero_stop_negative_candidate (b cp tp dist point : ℚ) (digits : ℕ)
    (ok : Bool) (hcp : 0 < cp) (hbig : cp < dist * point) :
    computeNewStop ORDER_TYPE_BUY cp 0 (dist * point) point digits = .newStop 0 ∧
    (applyTrailingStop (some ⟨ORDER_TYPE_BUY, 0, tp⟩) (some ⟨b, cp⟩)
      (some ⟨point, digits⟩) dist ok).2 = [⟨0, tp⟩] := by
  have hneg : cp - dist * point < 0 := by linarith
  have hmax : max (0 : ℚ) (cp - dist * point) = 0 := max_eq_left (le_of_lt hneg)
  have hnle : ¬cp ≤ (0 : ℚ) := not_le.mpr hcp
  have h1 : computeNewStop ORDER_TYPE_BUY cp 0 (dist * point) point digits =
      .newStop 0 := by
    simp [computeNewStop, hmax, hnle, roundTo_zero]
  refine ⟨h1, ?_⟩
  cases ok <;> simp [applyTrailingStop, h1]

/-- C9 witness: price 1, distance 2, point 1 — the candidate is negative,
the calculator answers `NewStop 0` and the submitted request clears the
stop while keeping the take-profit. -/
theorem zero_stop_negative_candidate_witness :
    computeNewStop ORDER_TYPE_BUY 1 0 (2 * 1) 1 0 = .newStop 0 ∧
    (applyTrailingStop (some ⟨ORDER_TYPE_BUY, 0, 2⟩) (some ⟨1, 1⟩)
      (some ⟨1, 0⟩) 2 true).2 = [⟨0, 2⟩] :=
  zero_stop_negative_candidate 1 1 2 2 1 0 true (by norm_num) (by norm_num)

/-- C1 counterexample: for a SHORT position with no stop set (previous
stop 0), the calculator adopts the candidate above the market, so the
accepted stop 1.11 is not ≤ the previous stop 0 — the claim's inclusion of
zero-stop positions in the short monotonicity fails. -/
theorem trailing_stop_monotone_cex :
    computeNewStop ORDER_TYPE_SELL (11 / 10) 0 (1 / 100) (1 / 10000) 4 =
      .newStop (111 / 100) ∧ ¬((111 / 100 : ℚ) ≤ 0) := by
  constructor
  · norm_num [computeNewStop, ORDER_TYPE_BUY, ORDER_TYPE_SELL, roundTo, pyRound,
      pyRoundAux]
  · norm_num

/-- C1 amended: when the previous stop lies on the instrument's precision
grid (`sl = k / 10 ^ digits`, as any broker-held stop does), an accepted
new stop is ≥ the previous stop for a long position, and ≤ the previous
stop for a short position whose previous stop is nonzero (a short with no
stop adopts the candidate above the market instead, and an off-grid
previous stop can additionally be crossed by the final rounding). -/
theorem trailing_stop_monotone_grid (cp sl tdp point : ℚ) (digits : ℕ) (v : ℚ)
    (k : ℤ) (hgrid : sl = (k : ℚ) / 10 ^ digits) :
    (computeNewStop ORDER_TYPE_BUY cp sl tdp point digits = .newStop v → sl ≤ v) ∧
    (sl ≠ 0 → computeNewStop ORDER_TYPE_SELL cp sl tdp point digits = .newStop v →
      v ≤ sl) := by
  have hself : roundTo sl digits = sl := by
    rw [hgrid]
    exact roundTo_grid k digits
  constructor
  · intro h
    rw [computeNewStop_buy] at h
    split_ifs at h with h1 h2
    cases h
    calc sl = roundTo sl digits := hself.symm
      _ ≤ roundTo (max sl (cp - tdp)) digits :=
        roundTo_mono digits (le_max_left _ _)
  · intro hsl h
    rw [computeNewStop_sell] at h
    simp only [hsl, if_false, ne_eq, not_false_eq_true, true_and] at h
    split_ifs at h with h1 h2
    cases h
    calc roundTo (min sl (cp + tdp)) digits
        ≤ roundTo sl digits := roundTo_mono digits (min_le_left _ _)
      _ = sl := hself

/-- C1 witness: a long position with on-grid stop 1 accepts new stop 1.5,
which is indeed ≥ the previous stop. -/
theorem trailing_stop_monotone_grid_witness :
    (1 : ℚ) ≤ 3 / 2 ∧
    computeNewStop ORDER_TYPE_BUY 2 1 (1 / 2) (1 / 1000) 3 = .newStop (3 / 2) := by
  have hthm := trailing_stop_monotone_grid 2 1 (1 / 2) (1 / 1000) 3 (3 / 2) 1000
    (by norm_num)
  have hc : computeNewStop ORDER_TYPE_BUY 2 1 (1 / 2) (1 / 1000) 3 =
      .newStop (3 / 2) := by
    norm_num [computeNewStop, ORDER_TYPE_BUY, roundTo, pyRound, pyRoundAux]
  exact ⟨hthm.1 hc, hc⟩

/-- C2 counterexample: a long position whose existing stop 1.2 is far
ABOVE the candidate 1.0 (absolute difference 0.2, vastly more than
0.1 × pointSize) still gets `NoChangeNeeded`, because the code's test is
one-sided (candidate may fail to improve by any amount), not the claimed
absolute-difference band. -/
theorem no_change_tolerance_cex :
    computeNewStop ORDER_TYPE_BUY (5 / 4) (6 / 5) (1 / 4) (1 / 10000) 4 =
      .noChange "No SL update needed" ∧
    ¬(|(5 / 4 - 1 / 4 : ℚ) - 6 / 5| < (1 / 10000) * (1 / 10)) := by
  constructor
  · norm_num [computeNewStop, ORDER_TYPE_BUY, ORDER_TYPE_SELL]
  · rw [abs_lt]
    norm_num

/-- C2 amended: for a nonnegative point size, `NoChangeNeeded` is returned
iff the effective new stop (max/min of existing stop and candidate) is
strictly on the correct side of the market, the existing stop is nonzero,
and the candidate does not improve on the existing stop by more than
0.1 × pointSize — a one-sided tolerance on the improvement, with ties
(improvement exactly equal to the tolerance) also suppressed. -/
theorem no_change_tolerance_iff (cp sl tdp point : ℚ) (digits : ℕ)
    (hpt : 0 ≤ point) :
    (computeNewStop ORDER_TYPE_BUY cp sl tdp point digits =
        .noChange "No SL update needed" ↔
      (max sl (cp - tdp) < cp ∧ sl ≠ 0 ∧ cp - tdp ≤ sl + point * (1 / 10))) ∧
    (computeNewStop ORDER_TYPE_SELL cp sl tdp point digits =
        .noChange "No SL update needed" ↔
      (cp < min sl (cp + tdp) ∧ sl ≠ 0 ∧ sl - point * (1 / 10) ≤ cp + tdp)) := by
  have htol : (0 : ℚ) ≤ point * (1 / 10) := by
    have h10 : (0 : ℚ) ≤ 1 / 10 := by norm_num
    exact mul_nonneg hpt h10
  constructor
  · rw [computeNewStop_buy]
    split_ifs with h1 h2
    · apply iff_of_false (by simp)
      rintro ⟨ha, -, -⟩
      exact absurd h1 (not_le.mpr ha)
    · apply iff_of_true rfl
      refine ⟨not_le.mp h1, h2.1, ?_⟩
      calc cp - tdp ≤ max sl (cp - tdp) := le_max_right _ _
        _ ≤ sl + point * (1 / 10) := h2.2
    · apply iff_of_false (by simp)
      rintro ⟨ha, hb, hc⟩
      exact h2 ⟨hb, max_le (by linarith) hc⟩
  · rw [computeNewStop_sell]
    by_cases hsl : sl = 0
    · subst hsl
      rw [if_pos rfl]
      apply iff_of_false
      · split_ifs with h1 h2
        · simp
        · exact absurd h2.1 (by norm_num)
        · simp
      · rintro ⟨-, hb, -⟩
        exact hb rfl
    · rw [if_neg hsl]
      split_ifs with h1 h2
      · apply iff_of_false (by simp)
        rintro ⟨ha, -, -⟩
        exact absurd h1 (not_le.mpr ha)
      · apply iff_of_true rfl
        refine ⟨not_le.mp h1, hsl, ?_⟩
        calc sl - point * (1 / 10) ≤ min sl (cp + tdp) := h2.2
          _ ≤ cp + tdp := min_le_right _ _
      · apply iff_of_false (by simp)
        rintro ⟨ha, -, hc⟩
        exact h2 ⟨hsl, le_min (by linarith) hc⟩

/-- C2 witness: existing stop 1, candidate 0.5, market 2 — the candidate
does not improve on the stop, so the calculator answers `NoChangeNeeded`. -/
theorem no_change_tolerance_iff_witness :
    computeNewStop ORDER_TYPE_BUY 2 1 (3 / 2) (1 / 10000) 4 =
      .noChange "No SL update needed" := by
  have h := (no_change_tolerance_iff 2 1 (3 / 2) (1 / 10000) 4 (by norm_num)).1
  apply h.mpr
  refine ⟨?_, by norm_num, by norm_num⟩
  have hm : max (1 : ℚ) (2 - 3 / 2) = 1 := by
    rw [max_eq_left]
    norm_num
  rw [hm]
  norm_num

/-- C3 counterexample: a long position whose EXISTING stop 2 already sits
above the market 1 is rejected even though the computed candidate 0.9 is
strictly below the market — `Reject` tracks the effective new stop
(max of stop and candidate), not the candidate the claim names. -/
theorem reject_wrong_side_cex :
    computeNewStop ORDER_TYPE_BUY 1 2 (1 / 10) (1 / 10000) 4 =
      .reject "No SL update needed - new SL is above current price" ∧
    (1 - 1 / 10 : ℚ) < 1 := by
  constructor
  · norm_num [computeNewStop, ORDER_TYPE_BUY, ORDER_TYPE_SELL]
  · norm_num

/-- C3 amended: a `Reject` decision is returned iff the EFFECTIVE new
stop — max of existing stop and candidate for a long; the candidate
itself when a short has no stop, else the min — sits at or above the
market for a long position, or at or below it for a short position. -/
theorem reject_iff_effective_stop (cp sl tdp point : ℚ) (digits : ℕ) :
    ((∃ m, computeNewStop ORDER_TYPE_BUY cp sl tdp point digits = .reject m) ↔
      cp ≤ max sl (cp - tdp)) ∧
    ((∃ m, computeNewStop ORDER_TYPE_SELL cp sl tdp point digits = .reject m) ↔
      (if sl = 0 then cp + tdp else min sl (cp + tdp)) ≤ cp) := by
  constructor
  · rw [computeNewStop_buy]
    split_ifs with h1 h2
    · exact iff_of_true ⟨_, rfl⟩ h1
    · exact iff_of_false (by simp) h1
    · exact iff_of_false (by simp) h1
  · rw [computeNewStop_sell]
    split_ifs with h0 h1 h2 h3 h4
    · exact iff_of_true ⟨_, rfl⟩ h1
    · exact iff_of_false (by simp) h1
    · exact iff_of_false (by simp) h1
    · exact iff_of_true ⟨_, rfl⟩ h3
    · exact iff_of_false (by simp) h3
    · exact iff_of_false (by simp) h3

end MT5Trailing
